import Mathlib

/-!
Shallow embedding of the ACL interop layer in `CUE4Parse-Natives/ACL.h`.

The C file is flat glue over the external ACL/RTM animation-compression
libraries.  We embed:

* the Unreal interop value types (`FVector`, `FQuat`, transform samples) with
  C `float` fields modelled as real numbers;
* the decompressed track containers (`track_qvvf`, `track_array_qvvf`) as
  lists of samples;
* `nConvertACLTrack` faithfully, statement by statement, including its
  buffer-allocation branches and its (shadowed) loop structure;
* an allocation log so that which allocator served each request, and whether
  the resulting pointer is reachable by the caller after the call returns,
  are observable in the model;
* the decompression-context entry points, whose implementations live in
  `ACLDecompress.h` / the ACL library (outside the provided sources) and are
  therefore modelled from the specification.
-/

/-- UE interop 3-vector (`FVector`); the C `float` components are modelled as
real numbers. -/
@[ext] structure FVector where
  x : ℝ
  y : ℝ
  z : ℝ

/-- UE interop quaternion (`FQuat`); `float` components modelled as reals. -/
@[ext] structure FQuat where
  x : ℝ
  y : ℝ
  z : ℝ
  w : ℝ

instance : Inhabited FVector := ⟨⟨0, 0, 0⟩⟩

instance : Inhabited FQuat := ⟨⟨0, 0, 0, 0⟩⟩

/-- One decompressed sample of a `qvvf` track: rotation, translation, scale.
This is the element type of `acl::track_qvvf`. -/
structure QVVf where
  rotation : FQuat
  translation : FVector
  scale : FVector

instance : Inhabited QVVf := ⟨⟨default, default, default⟩⟩

/-- An `acl::track_qvvf`: an ordered sequence of per-sample transforms. -/
structure TrackQvvf where
  samples : List QVVf

/-- An `acl::track_array_qvvf`: an ordered list of tracks.  ACL maintains a
uniform sample count across the tracks of one array. -/
structure TrackArrayQvvf where
  tracks : List TrackQvvf

/-- Reading `track[sampleIndex]`.  Out-of-range access is undefined behaviour
in the C++ source; the model totalises it with a default sample, and every
theorem carries bounds hypotheses keeping reads in range. -/
def TrackQvvf.sampleAt (t : TrackQvvf) (s : Nat) : QVVf :=
  t.samples[s]?.getD default

/-- The `tracks.get_num_tracks()` accessor. -/
def TrackArrayQvvf.get_num_tracks (ta : TrackArrayQvvf) : Nat :=
  ta.tracks.length

/-- The `tracks.get_num_samples_per_track()` accessor: 0 for an empty array,
otherwise the sample count of the first track (ACL keeps this uniform across
tracks). -/
def TrackArrayQvvf.get_num_samples_per_track (ta : TrackArrayQvvf) : Nat :=
  match ta.tracks with
  | [] => 0
  | t :: _ => t.samples.length

/-- Reading `tracks[trackIndex]`; totalised like `TrackQvvf.sampleAt`. -/
def TrackArrayQvvf.trackAt (ta : TrackArrayQvvf) (i : Nat) : TrackQvvf :=
  ta.tracks[i]?.getD ⟨[]⟩

/-- Squared Euclidean norm of a quaternion. -/
def quatNormSq (q : FQuat) : ℝ :=
  q.x ^ 2 + q.y ^ 2 + q.z ^ 2 + q.w ^ 2

/-- Euclidean norm of a quaternion. -/
noncomputable def quatNorm (q : FQuat) : ℝ :=
  Real.sqrt (quatNormSq q)

/-- Modelled from the spec: `rtm::quat_normalize` (external RTM library; the
spec says rotations are "re-normalized before output"): divide each component
by the Euclidean norm.  In C `float` arithmetic a zero-norm input produces
non-finite components; in this real-number model division by zero yields
zero — under both semantics the normalisation of the zero quaternion is not
unit-norm. -/
noncomputable def quat_normalize (q : FQuat) : FQuat :=
  ⟨q.x / quatNorm q, q.y / quatNorm q, q.z / quatNorm q, q.w / quatNorm q⟩

/-- Modelled from the spec: `QuatCast` (declared in `ACLDecompress.h`, absent
from the provided sources) converts an RTM quaternion to `FQuat` memberwise;
with both sides modelled by `FQuat` it is the identity. -/
def QuatCast (q : FQuat) : FQuat := q

/-- Modelled from the spec: `VectorCast` (declared in `ACLDecompress.h`,
absent from the provided sources) converts an RTM vector to `FVector`
memberwise; the identity in this model. -/
def VectorCast (v : FVector) : FVector := v

/-- Which allocator served an allocation request: the process-wide ACL
allocator adapter behind `nAllocate`/`nDeallocate` (`ACLAllocatorImpl`), or
the C runtime `malloc`. -/
inductive Allocator where
  | aclAdapter
  | cMalloc
deriving DecidableEq

/-- One allocation performed during a call: the allocator used, the number of
elements requested, and whether the pointer is still reachable by the caller
after the call returns (through the return value or a caller-visible
location). -/
structure AllocEvent where
  alloc : Allocator
  count : Nat
  escapes : Bool
deriving DecidableEq

/-- Caller-observable outcome of `nConvertACLTrack`.  `ret = some s` means an
explicit `return s` statement executed; `ret = none` records that control
fell off the end of the `const char*`-returning function, so no return value
exists (undefined behaviour in C++).  The `*Keys` fields are the final
contents of the three output arrays (caller-supplied or freshly allocated);
`allocs` is the allocation log of the call. -/
structure ConvertResult where
  ret : Option String
  posKeys : List FVector
  rotKeys : List FQuat
  scaleKeys : List FVector
  allocs : List AllocEvent

/-- The inner `for (sampleIndex = 0; sampleIndex < n; ++sampleIndex)
buf[sampleIndex] = f(sampleIndex);` loop: write `f s` into slot `s` of the
buffer for each `s < n`, in order. -/
def writeSlots (n : Nat) (f : Nat → α) (b : List α) : List α :=
  (List.range n).foldl (fun acc s => acc.set s (f s)) b

/-- One iteration of the outer track loop of `nConvertACLTrack`: the three
inner sample loops over rotation, translation and scale, writing into the
three buffers (rotation, position, scale in that order, as in the source). -/
noncomputable def writeTrack (n : Nat) (track : TrackQvvf)
    (bufs : List FQuat × List FVector × List FVector) :
    List FQuat × List FVector × List FVector :=
  (writeSlots n (fun s => QuatCast (quat_normalize (track.sampleAt s).rotation)) bufs.1,
   writeSlots n (fun s => VectorCast (track.sampleAt s).translation) bufs.2.1,
   writeSlots n (fun s => VectorCast (track.sampleAt s).scale) bufs.2.2)

/-- The `nConvertACLTrack` entry point.  Faithful rendering of the C body:

* `numSamples = tracks.get_num_samples_per_track(); if (numSamples == 0)
  return "Clip has no samples";` — early return before any allocation or
  write;
* each null output pointer is replaced by a fresh `malloc` of `numSamples`
  elements (uninitialised memory, modelled as a default-filled buffer; every
  slot below `numSamples` is overwritten before the claims observe it); the
  new pointer is stored only in the by-value parameter, so it never escapes
  to the caller (`escapes := false`);
* the outer loop declares a new `trackIndex` shadowing the parameter and
  walks every track of the array, each iteration overwriting slots
  `0..numSamples-1` of all three buffers;
* control then falls off the end of the function: no return statement
  executes on this path (`ret := none`). -/
noncomputable def nConvertACLTrack (tracks : TrackArrayQvvf) (trackIndex : Nat)
    (outPosKeys : Option (List FVector)) (outRotKeys : Option (List FQuat))
    (outScaleKeys : Option (List FVector)) : ConvertResult :=
  let numSamples := tracks.get_num_samples_per_track
  if numSamples = 0 then
    { ret := some "Clip has no samples"
      posKeys := outPosKeys.getD []
      rotKeys := outRotKeys.getD []
      scaleKeys := outScaleKeys.getD []
      allocs := [] }
  else
    let posBuf := outPosKeys.getD (List.replicate numSamples default)
    let rotBuf := outRotKeys.getD (List.replicate numSamples default)
    let scaleBuf := outScaleKeys.getD (List.replicate numSamples default)
    let allocs :=
      (if outPosKeys.isNone then [⟨Allocator.cMalloc, numSamples, false⟩] else []) ++
      (if outRotKeys.isNone then [⟨Allocator.cMalloc, numSamples, false⟩] else []) ++
      (if outScaleKeys.isNone then [⟨Allocator.cMalloc, numSamples, false⟩] else [])
    let final := tracks.tracks.foldl (fun bufs track => writeTrack numSamples track bufs)
      (rotBuf, posBuf, scaleBuf)
    { ret := none
      posKeys := final.2.1
      rotKeys := final.1
      scaleKeys := final.2.2
      allocs := allocs }

/-- The sample rounding policies of `seek`.  Modelled from the spec:
`acl::sample_rounding_policy` is external; the spec's enum is
`{Nearest, Floor, Ceil}`. -/
inductive SampleRoundingPolicy where
  | nearest
  | floor
  | ceil
deriving DecidableEq

/-- Modelled from the spec: `acl::compressed_tracks` is an opaque, immutable,
validated binary blob and the decompression math is an external "decoding
oracle".  The blob is modelled by its observable behaviour: its track count,
the oracle mapping (current time, rounding policy, track index) to the
interpolated transform, the validity diagnosis (`is_valid`, parametrised by
the `checkHash` flag, returning a text string that is empty on success), and
the outcome of `acl::convert_track_list` on it (its error text, the
materialised track array, and the element counts of the allocations the
library requests from the allocator instance it is handed). -/
structure CompressedTracks where
  numTracks : Nat
  decode : Int → SampleRoundingPolicy → Nat → QVVf
  validity : Bool → String
  convertError : String
  convertedTracks : TrackArrayQvvf
  convertAllocCounts : List Nat

/-- The `nCompressedTracks_IsValid` entry point: forwards to the library's
`is_valid(checkHash)` and returns its diagnosis text (`c_str()`), empty on
success. -/
def nCompressedTracks_IsValid (tracks : CompressedTracks) (checkHash : Bool) : String :=
  tracks.validity checkHash

/-- Outcome of `nConvertTrackList`: the returned error text (empty on
success), the materialised `track_array_qvvf` written through the out
reference, and the allocation log of the call. -/
structure ConvertTrackListResult where
  err : String
  outTracks : TrackArrayQvvf
  allocs : List AllocEvent

/-- The `nConvertTrackList` entry point: forwards to
`acl::convert_track_list(ACLAllocatorImpl, tracks, outTracks)`.  The source
passes the process-wide adapter `ACLAllocatorImpl` as the allocator argument,
so every allocation the library performs during conversion is served by the
adapter; the converted array is written through the caller's out reference,
hence reachable by the caller. -/
def nConvertTrackList (tracks : CompressedTracks) : ConvertTrackListResult :=
  { err := tracks.convertError
    outTracks := tracks.convertedTracks
    allocs := tracks.convertAllocCounts.map (fun c => ⟨Allocator.aclAdapter, c, true⟩) }

/-- Modelled from the spec: `DecompContextDefault` (declared in
`ACLDecompress.h`, absent from the provided sources) is a mutable session:
a borrowed reference to at most one compressed track set, the current sample
time of the last seek, and its rounding policy. -/
structure DecompContextDefault where
  bound : Option CompressedTracks
  sampleTime : Int
  policy : SampleRoundingPolicy

/-- The `nDecompContextDefault_Seek` entry point, modelled from the spec:
`seek` records the requested time and rounding policy in the session and
performs no decoding. -/
def nDecompContextDefault_Seek (c : DecompContextDefault) (sampleTime : Int)
    (roundingPolicy : SampleRoundingPolicy) : DecompContextDefault :=
  { c with sampleTime := sampleTime, policy := roundingPolicy }

/-- Modelled from the spec: `FUE4OutputWriter` wraps a caller-owned array of
transforms and a track-to-atom (output slot) mapping; `none` marks a track
with no output slot. -/
structure FUE4OutputWriter where
  atoms : List QVVf
  trackToAtom : Nat → Option Nat

/-- Scatter loop of the batch writer: for each track index `i < n` in
ascending order, if the mapping assigns `i` a slot, store `g i` there. -/
def scatterWrite (map : Nat → Option Nat) (g : Nat → α) (n : Nat) (a : List α) : List α :=
  (List.range n).foldl
    (fun acc i =>
      match map i with
      | some s => acc.set s (g i)
      | none => acc)
    a

/-- The `nDecompContextDefault_DecompressTracks` entry point, modelled from
the spec: for the session's current time and policy, visit every track of
the bound set in ascending index order and deliver its interpolated
transform to the writer at the slot given by the track-to-slot mapping.  An
uninitialised context fails and performs no writes. -/
def nDecompContextDefault_DecompressTracks (c : DecompContextDefault)
    (writer : FUE4OutputWriter) : FUE4OutputWriter :=
  match c.bound with
  | none => writer
  | some ct =>
      { writer with
        atoms := scatterWrite writer.trackToAtom
          (fun i => ct.decode c.sampleTime c.policy i) ct.numTracks writer.atoms }

/-- The `nDecompContextDefault_DecompressTrack` entry point, modelled from
the spec: deliver the one requested track's transform at the session's
current time to the single-slot writer.  An uninitialised context fails and
leaves the slot unwritten. -/
def nDecompContextDefault_DecompressTrack (c : DecompContextDefault) (trackIndex : Nat)
    (atom : QVVf) : QVVf :=
  match c.bound with
  | none => atom
  | some ct => ct.decode c.sampleTime c.policy trackIndex

/-- Unrolling one step of the inner sample loop. -/
theorem writeSlots_succ (k : Nat) (f : Nat → α) (b : List α) :
    writeSlots (k + 1) f b = (writeSlots k f b).set k (f k) := by
  rw [writeSlots, List.range_succ, List.foldl_append]
  rfl

/-- The inner sample loop preserves the buffer length. -/
theorem length_writeSlots (n : Nat) (f : Nat → α) (b : List α) :
    (writeSlots n f b).length = b.length := by
  induction n with
  | zero => rfl
  | succ k ih => rw [writeSlots_succ, List.length_set, ih]

/-- After the inner sample loop, slot `i < n` of a sufficiently long buffer
holds `f i`. -/
theorem getElem?_writeSlots (n : Nat) (f : Nat → α) (b : List α) (i : Nat)
    (hi : i < n) (hb : i < b.length) :
    (writeSlots n f b)[i]? = some (f i) := by
  induction n with
  | zero => omega
  | succ k ih =>
    rw [writeSlots_succ]
    rcases Nat.lt_or_ge i k with h | h
    · rw [List.getElem?_set_ne (by omega)]
      exact ih h
    · have hik : i = k := by omega
      subst hik
      exact List.getElem?_set_eq_of_lt _ (by rw [length_writeSlots]; exact hb)

/-- A nonzero per-track sample count forces the track list to be nonempty. -/
theorem tracks_ne_nil_of_samples (ta : TrackArrayQvvf)
    (hn : ta.get_num_samples_per_track ≠ 0) : ta.tracks ≠ [] := by
  intro h
  apply hn
  simp [TrackArrayQvvf.get_num_samples_per_track, h]

/-- The outer track loop preserves the lengths of the three buffers. -/
theorem convertFold_lengths (n : Nat) (l : List TrackQvvf)
    (bufs : List FQuat × List FVector × List FVector) :
    (l.foldl (fun b t => writeTrack n t b) bufs).1.length = bufs.1.length ∧
      (l.foldl (fun b t => writeTrack n t b) bufs).2.1.length = bufs.2.1.length ∧
      (l.foldl (fun b t => writeTrack n t b) bufs).2.2.length = bufs.2.2.length := by
  induction l generalizing bufs with
  | nil => exact ⟨rfl, rfl, rfl⟩
  | cons t ts ih =>
    simp only [List.foldl_cons]
    refine ⟨?_, ?_, ?_⟩
    · rw [(ih (writeTrack n t bufs)).1, writeTrack, length_writeSlots]
    · rw [(ih (writeTrack n t bufs)).2.1, writeTrack, length_writeSlots]
    · rw [(ih (writeTrack n t bufs)).2.2, writeTrack, length_writeSlots]

/-- A nonempty outer track loop factors as the loop over all but the last
track followed by one pass over the last track. -/
theorem convertFold_last (n : Nat) (l : List TrackQvvf) (h : l ≠ [])
    (bufs : List FQuat × List FVector × List FVector) :
    l.foldl (fun b t => writeTrack n t b) bufs =
      writeTrack n (l.getLast h) (l.dropLast.foldl (fun b t => writeTrack n t b) bufs) := by
  conv_lhs => rw [← List.dropLast_append_getLast h]
  rw [List.foldl_append]
  rfl

/-- Unrolling one step of the batch scatter loop. -/
theorem scatterWrite_succ (map : Nat → Option Nat) (g : Nat → α) (k : Nat) (a : List α) :
    scatterWrite map g (k + 1) a =
      (match map k with
       | some s => (scatterWrite map g k a).set s (g k)
       | none => scatterWrite map g k a) := by
  rw [scatterWrite, List.range_succ, List.foldl_append]
  rfl

/-- The batch scatter loop preserves the atom-array length. -/
theorem length_scatterWrite (map : Nat → Option Nat) (g : Nat → α) (n : Nat) (a : List α) :
    (scatterWrite map g n a).length = a.length := by
  induction n with
  | zero => rfl
  | succ k ih =>
    rw [scatterWrite_succ]
    cases hmk : map k with
    | none => simpa using ih
    | some s => simp only [List.length_set, ih]

/-- If track `i < n` is the only track of the first `n` that the mapping
sends to slot `s`, the scatter loop leaves `g i` in slot `s`. -/
theorem getElem?_scatterWrite (map : Nat → Option Nat) (g : Nat → α) (n : Nat) (a : List α)
    (i s : Nat) (hi : i < n) (hmap : map i = some s) (hs : s < a.length)
    (huniq : ∀ j, j < n → map j = some s → j = i) :
    (scatterWrite map g n a)[s]? = some (g i) := by
  induction n with
  | zero => omega
  | succ k ih =>
    rw [scatterWrite_succ]
    rcases Nat.lt_or_ge i k with hik | hik
    · have hk : map k ≠ some s := by
        intro hc
        have := huniq k (Nat.lt_succ_self k) hc
        omega
      cases hmk : map k with
      | none => exact ih hik (fun j hj hm => huniq j (Nat.lt_succ_of_lt hj) hm)
      | some t =>
        have hts : t ≠ s := by
          intro h
          exact hk (by rw [hmk, h])
        rw [List.getElem?_set_ne hts]
        exact ih hik (fun j hj hm => huniq j (Nat.lt_succ_of_lt hj) hm)
    · have hik' : i = k := by omega
      subst hik'
      rw [hmap]
      exact List.getElem?_set_eq_of_lt _ (by rw [length_scatterWrite]; exact hs)

/-- Normalising a quaternion of nonzero squared norm yields a quaternion of
exact unit norm. -/
theorem quatNorm_normalize (q : FQuat) (h : quatNormSq q ≠ 0) :
    quatNorm (quat_normalize q) = 1 := by
  have hnn : 0 ≤ quatNormSq q := by
    unfold quatNormSq
    positivity
  have hsq : Real.sqrt (quatNormSq q) ^ 2 = quatNormSq q := Real.sq_sqrt hnn
  have key : quatNormSq (quat_normalize q) = 1 := by
    show (q.x / quatNorm q) ^ 2 + (q.y / quatNorm q) ^ 2 + (q.z / quatNorm q) ^ 2 +
        (q.w / quatNorm q) ^ 2 = 1
    unfold quatNorm
    rw [div_pow, div_pow, div_pow, div_pow, div_add_div_same, div_add_div_same,
      div_add_div_same, hsq]
    exact div_self h
  unfold quatNorm
  rw [key, Real.sqrt_one]

/-- Core characterisation of `nConvertACLTrack` on a clip with samples: slot
`s < numSamples` of each output array holds the corresponding component of
sample `s` of the last track of the array — the `trackIndex` parameter is
shadowed by the loop variable and never read, and each loop iteration
overwrites all slots, so the last track wins. -/
theorem nConvertACLTrack_final_slots (ta : TrackArrayQvvf) (idx : Nat)
    (oP : Option (List FVector)) (oR : Option (List FQuat)) (oS : Option (List FVector))
    (hn : ta.get_num_samples_per_track ≠ 0)
    (hne : ta.tracks ≠ [])
    (hP : ∀ b ∈ oP, b.length = ta.get_num_samples_per_track)
    (hR : ∀ b ∈ oR, b.length = ta.get_num_samples_per_track)
    (hS : ∀ b ∈ oS, b.length = ta.get_num_samples_per_track)
    (s : Nat) (hs : s < ta.get_num_samples_per_track) :
    (nConvertACLTrack ta idx oP oR oS).rotKeys[s]? =
        some (QuatCast (quat_normalize ((ta.tracks.getLast hne).sampleAt s).rotation)) ∧
      (nConvertACLTrack ta idx oP oR oS).posKeys[s]? =
        some (VectorCast ((ta.tracks.getLast hne).sampleAt s).translation) ∧
      (nConvertACLTrack ta idx oP oR oS).scaleKeys[s]? =
        some (VectorCast ((ta.tracks.getLast hne).sampleAt s).scale) := by
  have hRl : (oR.getD (List.replicate ta.get_num_samples_per_track default)).length
      = ta.get_num_samples_per_track := by
    cases oR with
    | none => simp
    | some b => simpa using hR b rfl
  have hPl : (oP.getD (List.replicate ta.get_num_samples_per_track default)).length
      = ta.get_num_samples_per_track := by
    cases oP with
    | none => simp
    | some b => simpa using hP b rfl
  have hSl : (oS.getD (List.replicate ta.get_num_samples_per_track default)).length
      = ta.get_num_samples_per_track := by
    cases oS with
    | none => simp
    | some b => simpa using hS b rfl
  have hfold := convertFold_lengths ta.get_num_samples_per_track ta.tracks.dropLast
      (oR.getD (List.replicate ta.get_num_samples_per_track default),
       oP.getD (List.replicate ta.get_num_samples_per_track default),
       oS.getD (List.replicate ta.get_num_samples_per_track default))
  refine ⟨?_, ?_, ?_⟩ <;>
    simp only [nConvertACLTrack, hn, if_false, ite_false] <;>
    rw [convertFold_last _ _ hne] <;>
    rw [writeTrack]
  · exact getElem?_writeSlots _ _ _ s hs (by rw [hfold.1, hRl]; exact hs)
  · exact getElem?_writeSlots _ _ _ s hs (by rw [hfold.2.1, hPl]; exact hs)
  · exact getElem?_writeSlots _ _ _ s hs (by rw [hfold.2.2, hSl]; exact hs)

/-- Indexing the track array at `numTracks - 1` is reading its last track. -/
theorem trackAt_last (ta : TrackArrayQvvf) (hne : ta.tracks ≠ []) :
    ta.trackAt (ta.get_num_tracks - 1) = ta.tracks.getLast hne := by
  have hlen : 0 < ta.tracks.length := List.length_pos.mpr hne
  rw [TrackArrayQvvf.trackAt, TrackArrayQvvf.get_num_tracks,
    List.getElem?_eq_getElem (by omega), Option.getD_some, List.getLast_eq_getElem]

/-- A one-track, one-sample track array used as a concrete input: rotation
`(0,0,0,1)`, translation `(1,2,3)`, scale `(1,1,1)`. -/
def oneSampleTA : TrackArrayQvvf :=
  ⟨[⟨[⟨⟨0, 0, 0, 1⟩, ⟨1, 2, 3⟩, ⟨1, 1, 1⟩⟩]⟩]⟩

/-- A two-track, one-sample track array whose tracks differ in translation:
track 0 translates by `(1,0,0)`, track 1 by `(2,0,0)`. -/
def twoTrackTA : TrackArrayQvvf :=
  ⟨[⟨[⟨⟨0, 0, 0, 1⟩, ⟨1, 0, 0⟩, ⟨1, 1, 1⟩⟩]⟩, ⟨[⟨⟨0, 0, 0, 1⟩, ⟨2, 0, 0⟩, ⟨1, 1, 1⟩⟩]⟩]⟩

/-- A one-track, one-sample track array whose sample carries the zero
quaternion as its rotation. -/
def zeroRotTA : TrackArrayQvvf :=
  ⟨[⟨[⟨⟨0, 0, 0, 0⟩, ⟨0, 0, 0⟩, ⟨1, 1, 1⟩⟩]⟩]⟩

/-- C1 (the claim fails on the code; evaluation at a failing input): asking
`nConvertACLTrack` for track 0 of a two-track clip whose tracks differ in
translation leaves track 1's translation `(2,0,0)` in slot 0 of the position
output, while the requested track 0 has translation `(1,0,0)` there — the
loop variable shadows the `trackIndex` parameter, so the requested track is
never the one extracted (unless it happens to be the last). -/
theorem c1_requested_track_not_extracted :
    (nConvertACLTrack twoTrackTA 0 (some [⟨0, 0, 0⟩]) (some [⟨0, 0, 0, 0⟩])
        (some [⟨0, 0, 0⟩])).posKeys = [⟨2, 0, 0⟩] ∧
      VectorCast ((twoTrackTA.trackAt 0).sampleAt 0).translation = ⟨1, 0, 0⟩ ∧
      (⟨2, 0, 0⟩ : FVector) ≠ ⟨1, 0, 0⟩ := by
  refine ⟨?_, ?_, ?_⟩
  · simp [nConvertACLTrack, twoTrackTA, TrackArrayQvvf.get_num_samples_per_track,
      writeTrack, writeSlots, show List.range 1 = [0] from rfl, TrackQvvf.sampleAt, VectorCast]
  · simp [twoTrackTA, TrackArrayQvvf.trackAt, TrackQvvf.sampleAt, VectorCast]
  · intro h
    have := congrArg FVector.x h
    norm_num at this

/-- C2 (the claim fails on the code; evaluation at a failing input): when the
caller passes null output buffers to `nConvertACLTrack` on a one-sample clip,
three one-element buffers are allocated with `malloc`, and none of the three
pointers is reachable by the caller after the call — each is stored only in
the by-value pointer parameter, and the function returns nothing else, so
ownership is never handed back (the memory leaks). -/
theorem c2_fresh_buffer_allocations_never_escape :
    (nConvertACLTrack oneSampleTA 0 none none none).allocs =
      [⟨Allocator.cMalloc, 1, false⟩, ⟨Allocator.cMalloc, 1, false⟩,
        ⟨Allocator.cMalloc, 1, false⟩] := by
  simp [nConvertACLTrack, oneSampleTA, TrackArrayQvvf.get_num_samples_per_track]

/-- C3 (the claim fails on the code; evaluation at a failing input): when
`numSamples > 0` and extraction completes, control falls off the end of
`nConvertACLTrack` without executing any return statement, so no string —
empty, null or otherwise — is returned on the success path. -/
theorem c3_success_path_has_no_return_value :
    (nConvertACLTrack oneSampleTA 0 none none none).ret = none := by
  simp [nConvertACLTrack, oneSampleTA, TrackArrayQvvf.get_num_samples_per_track]

/-- C4: a track array with a zero per-track sample count makes
`nConvertACLTrack` return the explicit "Clip has no samples" error before
any allocation and before any write: the allocation log is empty and each
output buffer is exactly what the caller passed in. -/
theorem c4_empty_clip_error (ta : TrackArrayQvvf) (idx : Nat)
    (oP : Option (List FVector)) (oR : Option (List FQuat)) (oS : Option (List FVector))
    (hn : ta.get_num_samples_per_track = 0) :
    (nConvertACLTrack ta idx oP oR oS).ret = some "Clip has no samples" ∧
      (nConvertACLTrack ta idx oP oR oS).allocs = [] ∧
      (nConvertACLTrack ta idx oP oR oS).posKeys = oP.getD [] ∧
      (nConvertACLTrack ta idx oP oR oS).rotKeys = oR.getD [] ∧
      (nConvertACLTrack ta idx oP oR oS).scaleKeys = oS.getD [] := by
  refine ⟨?_, ?_, ?_, ?_, ?_⟩ <;> simp only [nConvertACLTrack, hn, if_true, ite_true]

/-- C4 witness: the empty track array triggers the empty-clip error with no
allocation and no writes. -/
theorem c4_empty_clip_error_witness :
    (nConvertACLTrack ⟨[]⟩ 0 none none none).ret = some "Clip has no samples" ∧
      (nConvertACLTrack ⟨[]⟩ 0 none none none).allocs = [] ∧
      (nConvertACLTrack ⟨[]⟩ 0 none none none).posKeys = [] ∧
      (nConvertACLTrack ⟨[]⟩ 0 none none none).rotKeys = [] ∧
      (nConvertACLTrack ⟨[]⟩ 0 none none none).scaleKeys = [] :=
  c4_empty_clip_error ⟨[]⟩ 0 none none none rfl
/-- C5 counterexample: a successful call on a clip whose (only, hence last)
track carries the zero quaternion writes `quat_normalize (0,0,0,0)` to the
rotation output, and that quaternion does not have unit norm (its norm is 0;
in C `float` arithmetic it would be NaN — not unit either way). -/
theorem c5_zero_quaternion_counterexample :
    (nConvertACLTrack zeroRotTA 0 none none none).ret ≠ some "Clip has no samples" ∧
      (nConvertACLTrack zeroRotTA 0 none none none).rotKeys[0]? =
        some (QuatCast (quat_normalize ⟨0, 0, 0, 0⟩)) ∧
      quatNorm (QuatCast (quat_normalize ⟨0, 0, 0, 0⟩)) ≠ 1 := by
  refine ⟨?_, ?_, ?_⟩
  · simp [nConvertACLTrack, zeroRotTA, TrackArrayQvvf.get_num_samples_per_track]
  · simp [nConvertACLTrack, zeroRotTA, TrackArrayQvvf.get_num_samples_per_track,
      writeTrack, writeSlots, show List.range 1 = [0] from rfl, TrackQvvf.sampleAt]
  · simp [QuatCast, quat_normalize, quatNorm, quatNormSq, Real.sqrt_zero]

/-- C5 (amended): for every successful `nConvertACLTrack` call, every sample
slot whose source quaternion (of the track actually copied — the last one)
has nonzero norm receives a rotation of exact unit norm, even when the
source quaternion is not unit-norm. -/
theorem c5_rotations_unit_norm_when_source_nonzero (ta : TrackArrayQvvf) (idx : Nat)
    (oP : Option (List FVector)) (oR : Option (List FQuat)) (oS : Option (List FVector))
    (s : Nat) (q : FQuat)
    (hn : ta.get_num_samples_per_track ≠ 0)
    (hne : ta.tracks ≠ [])
    (hP : ∀ b ∈ oP, b.length = ta.get_num_samples_per_track)
    (hR : ∀ b ∈ oR, b.length = ta.get_num_samples_per_track)
    (hS : ∀ b ∈ oS, b.length = ta.get_num_samples_per_track)
    (hs : s < ta.get_num_samples_per_track)
    (hnz : quatNormSq ((ta.tracks.getLast hne).sampleAt s).rotation ≠ 0)
    (hq : (nConvertACLTrack ta idx oP oR oS).rotKeys[s]? = some q) :
    quatNorm q = 1 := by
  have h := (nConvertACLTrack_final_slots ta idx oP oR oS hn hne hP hR hS s hs).1
  rw [h] at hq
  injection hq with hq'
  rw [← hq']
  exact quatNorm_normalize _ hnz

/-- C5 witness: on the one-sample clip with unit source rotation the output
rotation of slot 0 has unit norm. -/
theorem c5_rotations_unit_norm_witness :
    quatNorm (QuatCast (quat_normalize ⟨0, 0, 0, 1⟩)) = 1 := by
  refine c5_rotations_unit_norm_when_source_nonzero oneSampleTA 0 none none none 0
      (QuatCast (quat_normalize ⟨0, 0, 0, 1⟩)) ?_ ?_ ?_ ?_ ?_ ?_ ?_ ?_
  · norm_num [oneSampleTA, TrackArrayQvvf.get_num_samples_per_track]
  · simp [oneSampleTA]
  · simp
  · simp
  · simp
  · norm_num [oneSampleTA, TrackArrayQvvf.get_num_samples_per_track]
  · norm_num [oneSampleTA, TrackQvvf.sampleAt, quatNormSq]
  · simp [nConvertACLTrack, oneSampleTA, TrackArrayQvvf.get_num_samples_per_track,
      writeTrack, writeSlots, show List.range 1 = [0] from rfl, TrackQvvf.sampleAt]

/-- C6: for every successful `nConvertACLTrack` call and every sample index
`s` in range, the rotation, translation and scale written at slot `s` all
come from sample `s` of one and the same source track (the last track of the
array): sample-index alignment holds across the three parallel outputs. -/
theorem c6_outputs_sample_aligned (ta : TrackArrayQvvf) (idx : Nat)
    (oP : Option (List FVector)) (oR : Option (List FQuat)) (oS : Option (List FVector))
    (s : Nat)
    (hn : ta.get_num_samples_per_track ≠ 0)
    (hne : ta.tracks ≠ [])
    (huni : ∀ tr ∈ ta.tracks, tr.samples.length = ta.get_num_samples_per_track)
    (hP : ∀ b ∈ oP, b.length = ta.get_num_samples_per_track)
    (hR : ∀ b ∈ oR, b.length = ta.get_num_samples_per_track)
    (hS : ∀ b ∈ oS, b.length = ta.get_num_samples_per_track)
    (hs : s < ta.get_num_samples_per_track) :
    (nConvertACLTrack ta idx oP oR oS).rotKeys[s]? =
        some (QuatCast (quat_normalize ((ta.tracks.getLast hne).sampleAt s).rotation)) ∧
      (nConvertACLTrack ta idx oP oR oS).posKeys[s]? =
        some (VectorCast ((ta.tracks.getLast hne).sampleAt s).translation) ∧
      (nConvertACLTrack ta idx oP oR oS).scaleKeys[s]? =
        some (VectorCast ((ta.tracks.getLast hne).sampleAt s).scale) :=
  nConvertACLTrack_final_slots ta idx oP oR oS hn hne hP hR hS s hs

/-- C6 witness: on the one-track one-sample clip, slot 0 of the three outputs
carries the rotation, translation and scale of sample 0 of that track. -/
theorem c6_outputs_sample_aligned_witness :
    (nConvertACLTrack oneSampleTA 0 none none none).rotKeys[0]? =
        some (QuatCast (quat_normalize ⟨0, 0, 0, 1⟩)) ∧
      (nConvertACLTrack oneSampleTA 0 none none none).posKeys[0]? =
        some (VectorCast ⟨1, 2, 3⟩) ∧
      (nConvertACLTrack oneSampleTA 0 none none none).scaleKeys[0]? =
        some (VectorCast ⟨1, 1, 1⟩) := by
  refine c6_outputs_sample_aligned oneSampleTA 0 none none none 0 ?_ ?_ ?_ ?_ ?_ ?_ ?_
  · norm_num [oneSampleTA, TrackArrayQvvf.get_num_samples_per_track]
  · simp [oneSampleTA]
  · intro tr htr
    simp only [oneSampleTA, List.mem_singleton] at htr
    subst htr
    rfl
  · simp
  · simp
  · simp
  · norm_num [oneSampleTA, TrackArrayQvvf.get_num_samples_per_track]

/-- C7 counterexample: the buffers `nConvertACLTrack` allocates for absent
caller buffers come from `malloc`, so it is not the case that every
allocation of the call went through the ACL allocator adapter. -/
theorem c7_not_all_allocations_through_adapter :
    ¬ ∀ e ∈ (nConvertACLTrack oneSampleTA 0 none none none).allocs,
        e.alloc = Allocator.aclAdapter := by
  have hal : (nConvertACLTrack oneSampleTA 0 none none none).allocs =
      [⟨Allocator.cMalloc, 1, false⟩, ⟨Allocator.cMalloc, 1, false⟩,
        ⟨Allocator.cMalloc, 1, false⟩] := by
    simp [nConvertACLTrack, oneSampleTA, TrackArrayQvvf.get_num_samples_per_track]
  rw [hal]
  intro h
  exact Allocator.noConfusion (h ⟨Allocator.cMalloc, 1, false⟩ (by simp))

/-- C7 (amended): the allocator adapter serves every allocation the wrapped
library performs during `nConvertTrackList` (the source passes
`ACLAllocatorImpl` as the allocator instance), but every buffer allocation
`nConvertACLTrack` performs for an absent caller buffer is served by raw
`malloc`, never the adapter. -/
theorem c7_adapter_for_library_malloc_for_buffers (ct : CompressedTracks)
    (ta : TrackArrayQvvf) (idx : Nat) (oP : Option (List FVector))
    (oR : Option (List FQuat)) (oS : Option (List FVector)) :
    ((nConvertTrackList ct).allocs.all fun e => decide (e.alloc = Allocator.aclAdapter))
        = true ∧
      ((nConvertACLTrack ta idx oP oR oS).allocs.all
          fun e => decide (e.alloc = Allocator.cMalloc)) = true := by
  constructor
  · simp [nConvertTrackList, List.all_eq_true]
  · by_cases hn : ta.get_num_samples_per_track = 0
    · simp [nConvertACLTrack, hn]
    · rcases oP with _ | p <;> rcases oR with _ | r <;> rcases oS with _ | sb <;>
        simp [nConvertACLTrack, hn, List.all_eq_true]

/-- A concrete one-track compressed track set with a trivial decoding
oracle, used to instantiate the context theorems. -/
def trivialCT : CompressedTracks :=
  { numTracks := 1
    decode := fun _ _ _ => default
    validity := fun _ => ""
    convertError := ""
    convertedTracks := ⟨[]⟩
    convertAllocCounts := [4] }

/-- A concrete batch writer with one atom slot, mapping track 0 to slot 0. -/
def oneSlotWriter : FUE4OutputWriter :=
  { atoms := [default]
    trackToAtom := fun j => if j = 0 then some 0 else none }

/-- C8: on an initialized context, seeking is idempotent — after
`seek(T, P); decompressTracks` and after
`seek(T, P); decompressTracks; seek(T, P); decompressTracks` the decode
output delivered to the writer is identical (a decompress call reads but
does not change the seek state, and re-running `seek` with the same
arguments rebuilds the same session state). -/
theorem c8_seek_idempotent (c : DecompContextDefault) (ct : CompressedTracks)
    (hinit : c.bound = some ct) (T : Int) (P : SampleRoundingPolicy)
    (w : FUE4OutputWriter) :
    nDecompContextDefault_DecompressTracks
        (nDecompContextDefault_Seek (nDecompContextDefault_Seek c T P) T P) w =
      nDecompContextDefault_DecompressTracks (nDecompContextDefault_Seek c T P) w := rfl

/-- C8 witness: the idempotence equation at a concrete context, time,
policy and writer. -/
theorem c8_seek_idempotent_witness :
    nDecompContextDefault_DecompressTracks
        (nDecompContextDefault_Seek
          (nDecompContextDefault_Seek ⟨some trivialCT, 0, SampleRoundingPolicy.nearest⟩ 5
            SampleRoundingPolicy.floor) 5 SampleRoundingPolicy.floor) oneSlotWriter =
      nDecompContextDefault_DecompressTracks
        (nDecompContextDefault_Seek ⟨some trivialCT, 0, SampleRoundingPolicy.nearest⟩ 5
          SampleRoundingPolicy.floor) oneSlotWriter :=
  c8_seek_idempotent ⟨some trivialCT, 0, SampleRoundingPolicy.nearest⟩ trivialCT rfl 5
    SampleRoundingPolicy.floor oneSlotWriter

/-- C9: on an initialized context at a fixed time, the transform the
single-track decode delivers for track `i` equals what the batch decode
delivers to the slot the writer maps track `i` to, provided no other track
is mapped to that same slot. -/
theorem c9_batch_single_consistency (c : DecompContextDefault) (ct : CompressedTracks)
    (w : FUE4OutputWriter) (i s : Nat) (atom0 : QVVf)
    (hinit : c.bound = some ct)
    (hi : i < ct.numTracks)
    (hmap : w.trackToAtom i = some s)
    (hs : s < w.atoms.length)
    (huniq : ∀ j, j < ct.numTracks → w.trackToAtom j = some s → j = i) :
    (nDecompContextDefault_DecompressTracks c w).atoms[s]? =
      some (nDecompContextDefault_DecompressTrack c i atom0) := by
  simp only [nDecompContextDefault_DecompressTracks, nDecompContextDefault_DecompressTrack,
    hinit]
  exact getElem?_scatterWrite _ _ _ _ i s hi hmap hs huniq

/-- C9 witness: batch/single agreement for track 0 and slot 0 of the
concrete context and writer. -/
theorem c9_batch_single_consistency_witness :
    (nDecompContextDefault_DecompressTracks ⟨some trivialCT, 0, SampleRoundingPolicy.nearest⟩
        oneSlotWriter).atoms[0]? =
      some (nDecompContextDefault_DecompressTrack
        ⟨some trivialCT, 0, SampleRoundingPolicy.nearest⟩ 0 default) := by
  refine c9_batch_single_consistency ⟨some trivialCT, 0, SampleRoundingPolicy.nearest⟩
      trivialCT oneSlotWriter 0 0 default rfl ?_ ?_ ?_ ?_
  · norm_num [trivialCT]
  · rfl
  · norm_num [oneSlotWriter]
  · intro j hj hm
    norm_num [trivialCT] at hj
    omega

/-- C10: the `trackIndex` argument of `nConvertACLTrack` has no influence on
the result — calls with any two in-range indices `i` and `j` on the same
array and buffers are equal — and every output slot holds the corresponding
component of the last track (index `numTracks - 1`) of the array. -/
theorem c10_trackIndex_has_no_influence (ta : TrackArrayQvvf) (i j : Nat)
    (oP : Option (List FVector)) (oR : Option (List FQuat)) (oS : Option (List FVector))
    (s : Nat)
    (hn : ta.get_num_samples_per_track ≠ 0)
    (hi : i < ta.get_num_tracks) (hj : j < ta.get_num_tracks)
    (hne : ta.tracks ≠ [])
    (huni : ∀ tr ∈ ta.tracks, tr.samples.length = ta.get_num_samples_per_track)
    (hP : ∀ b ∈ oP, b.length = ta.get_num_samples_per_track)
    (hR : ∀ b ∈ oR, b.length = ta.get_num_samples_per_track)
    (hS : ∀ b ∈ oS, b.length = ta.get_num_samples_per_track)
    (hs : s < ta.get_num_samples_per_track) :
    nConvertACLTrack ta i oP oR oS = nConvertACLTrack ta j oP oR oS ∧
      (nConvertACLTrack ta i oP oR oS).rotKeys[s]? =
        some (QuatCast (quat_normalize
          ((ta.trackAt (ta.get_num_tracks - 1)).sampleAt s).rotation)) ∧
      (nConvertACLTrack ta i oP oR oS).posKeys[s]? =
        some (VectorCast ((ta.trackAt (ta.get_num_tracks - 1)).sampleAt s).translation) ∧
      (nConvertACLTrack ta i oP oR oS).scaleKeys[s]? =
        some (VectorCast ((ta.trackAt (ta.get_num_tracks - 1)).sampleAt s).scale) := by
  have h := nConvertACLTrack_final_slots ta i oP oR oS hn hne hP hR hS s hs
  rw [trackAt_last ta hne]
  exact ⟨rfl, h.1, h.2.1, h.2.2⟩

/-- C10 witness: on the two-track clip, the calls for track 0 and track 1
coincide and slot 0 carries track 1's (the last track's) sample. -/
theorem c10_trackIndex_has_no_influence_witness :
    nConvertACLTrack twoTrackTA 0 none none none =
        nConvertACLTrack twoTrackTA 1 none none none ∧
      (nConvertACLTrack twoTrackTA 0 none none none).rotKeys[0]? =
        some (QuatCast (quat_normalize ⟨0, 0, 0, 1⟩)) ∧
      (nConvertACLTrack twoTrackTA 0 none none none).posKeys[0]? =
        some (VectorCast ⟨2, 0, 0⟩) ∧
      (nConvertACLTrack twoTrackTA 0 none none none).scaleKeys[0]? =
        some (VectorCast ⟨1, 1, 1⟩) := by
  refine c10_trackIndex_has_no_influence twoTrackTA 0 1 none none none 0 ?_ ?_ ?_ ?_ ?_
      ?_ ?_ ?_ ?_
  · norm_num [twoTrackTA, TrackArrayQvvf.get_num_samples_per_track]
  · norm_num [twoTrackTA, TrackArrayQvvf.get_num_tracks]
  · norm_num [twoTrackTA, TrackArrayQvvf.get_num_tracks]
  · simp [twoTrackTA]
  · intro tr htr
    simp only [twoTrackTA, List.mem_cons, List.mem_singleton, List.not_mem_nil,
      or_false] at htr
    rcases htr with rfl | rfl <;> rfl
  · simp
  · simp
  · simp
  · norm_num [twoTrackTA, TrackArrayQvvf.get_num_samples_per_track]
